import Mathlib

/-!
Shallow embedding of the `reporter` CLI tool (Go, `main.go` and the date-range
file) and verification of spec claims about it.

Modelling conventions:
* `time.Time` instants are modelled as integers counting nanoseconds
  (`time.Duration` units); `time.Add` is integer addition and `Before` is `<`.
  A nullable `*time.Time` is `Option Time`.
* Go strings are Lean `String`s; `strings.ToLower` is modelled per-character
  via `Char.toLower` (the logins and filters involved are ASCII).
* The iteration over a Go `map` (the reviewer-deduplication set and the
  per-user statistics map) is unordered in Go; we model the map as an
  association list in insertion order, which realises one legal iteration
  order.
* Network fetches are modelled by passing the fetched lists (pull requests,
  reviews, issues) as arguments; the reviews of a pull request are attached
  to the pull request record.
-/

namespace Reporter

/-- Instants in nanoseconds, modelling `time.Time`. -/
abbrev Time := Int

/-- `time.Hour` in nanoseconds. -/
def hourNs : Int := 3600 * 1000000000

/-- Model of Go `strings.ToLower` (ASCII). -/
def lower (s : String) : String := ⟨s.data.map Char.toLower⟩

/-- `WeeklyRange` from the date-range source file: holds the reference instant. -/
structure WeeklyRange where
  t : Time
deriving DecidableEq

/-- `WeeklyRange.Include`: `nil` timestamps are rejected, otherwise
`r.t.Add(-time.Hour * 24 * 7).Before(*t)`. -/
def WeeklyRange.Include (r : WeeklyRange) : Option Time → Bool
  | none => false
  | some tm => decide (r.t + (-(hourNs * 24 * 7)) < tm)

/-- A pull-request review as used by the tool: reviewer login, author
association, review state. -/
structure Review where
  user : String
  authorAssociation : String
  state : String
deriving DecidableEq

/-- The pull-request fields read by the tool. `reviews` carries the result of
the per-PR `ListReviews` fetch. -/
structure PullRequest where
  title : String
  userLogin : String
  state : String
  merged : Bool
  draft : Bool
  mergedAt : Option Time
  closedAt : Option Time
  assignee : Option String
  reviews : List Review
  htmlURL : String
deriving DecidableEq

/-- The issue fields read by the `contrib` command. -/
structure Issue where
  userLogin : String
  assignee : Option String
  closedAt : Option Time
  htmlURL : String
deriving DecidableEq

/-- Go getter `pr.GetClosedAt()`: dereferences the pointer, yielding the zero
time when the field is `nil`. -/
def GetClosedAt (pr : PullRequest) : Time := pr.closedAt.getD 0

/-- The `author` helper of `main.go`: resolve `"me"` to the authenticated
user's login, strip a leading `@` when `len(author) > 2`, lowercase a
non-empty result. `authUser` is the login returned by `client.Users.Get`. -/
def author (raw authUser : String) : String :=
  let a := if raw = "me" then authUser else raw
  let a := if a.utf8ByteSize > 2 ∧ a.front = '@' then a.drop 1 else a
  if a ≠ "" then lower a else a

/-- The fixed path `$HOME/.config/reporter/github_token.txt` tried by the
`token` helper. -/
def tokenFile (home : String) : String := home ++ "/.config/reporter/github_token.txt"

/-- The `token` helper of `main.go`. `flag` is the `--token` flag value, `env`
the `GITHUB_TOKEN` environment variable, `home` the `HOME` environment
variable, and `file` is `some contents` exactly when `ioutil.ReadFile`
succeeds on the config file. -/
def token (flag env home : String) (file : Option String) : Except String String :=
  if flag ≠ "" then .ok flag
  else if env ≠ "" then .ok env
  else
    match file with
    | some contents => .ok contents
    | none => .error ("GitHub token neither given as a flag, nor found in env, not in "
        ++ tokenFile home)

/-- The author-filter skip test shared by `cmdRep` and `cmdStat`:
`author != "" && author != strings.ToLower(pr.GetUser().GetLogin())`. -/
def repAuthorSkip (f login : String) : Bool :=
  decide (f ≠ "" ∧ f ≠ lower login)

/-- The author-filter match test used in `cmdContribs`:
`author == "" || (author != "" && author == login)` (note: the login is NOT
lowercased here). -/
def contribAuthorMatch (f login : String) : Bool :=
  decide (f = "" ∨ (f ≠ "" ∧ f = login))

/-- The filter chain of `cmdRep` applied to a closed pull request, with the
active range's `Include` passed as `rng` and the already-normalized author
filter as `f`. -/
def reportIncludes (rng : Option Time → Bool) (f : String) (pr : PullRequest) : Bool :=
  if pr.mergedAt = none then false
  else if !(rng (some (GetClosedAt pr))) then false
  else if pr.userLogin.startsWith "dependabot" then false
  else if repAuthorSkip f pr.userLogin then false
  else true

/-- The filter chain of `cmdStat` applied to an open pull request. -/
def statIncludes (f : String) (pr : PullRequest) : Bool :=
  if pr.userLogin.startsWith "dependabot" then false
  else if repAuthorSkip f pr.userLogin then false
  else if pr.draft then false
  else true

/-- One output line of `cmdRep`:
`" - <title>[ @<login>]: <url>"`, the login appearing unless `--authors`. -/
def repLine (authors : Bool) (pr : PullRequest) : String :=
  " - " ++ pr.title ++ (if !authors then " @" ++ pr.userLogin else "") ++ ": " ++ pr.htmlURL

/-- The item lines printed by `cmdRep` (spinner control sequences aside):
one line per surviving pull request, or the literal `" - Nothing ;)"` when
none survived. -/
def cmdRepLines (rng : Option Time → Bool) (f : String) (authors : Bool)
    (prs : List PullRequest) : List String :=
  let ls := (prs.filter (reportIncludes rng f)).map (repLine authors)
  if ls.isEmpty then [" - Nothing ;)"] else ls

/-- The state column of a `cmdStat` line: `pr.GetState()` plus `":merged"`. -/
def statState (pr : PullRequest) : String :=
  pr.state ++ (if pr.merged then ":merged" else "")

/-- The assignee column of a `cmdStat` line. -/
def statAssignee (pr : PullRequest) : String :=
  match pr.assignee with
  | some a => "(a:@" ++ a ++ ")"
  | none => "(a:0)"

/-- The review-status column of a `cmdStat` line: dismissed and comment-only
reviews are skipped. -/
def revStat (revs : List Review) : String :=
  "[" ++ String.join (revs.filterMap (fun r =>
    if r.state = "DISMISSED" ∨ r.state = "COMMENTED" then none
    else some (r.user ++ ":" ++ r.state ++ ","))) ++ "]"

/-- One output line of `cmdStat`. -/
def statLine (pr : PullRequest) : String :=
  " - " ++ pr.title ++ " (" ++ statState pr ++ ", " ++ revStat pr.reviews ++ ") by @"
    ++ pr.userLogin ++ " " ++ statAssignee pr ++ " " ++ pr.htmlURL

/-- The item lines printed by `cmdStat` after the `"Active pull requests:"`
header: one line per surviving pull request, or the literal `" - None ;)"`. -/
def cmdStatLines (f : String) (prs : List PullRequest) : List String :=
  let ls := (prs.filter (statIncludes f)).map statLine
  if ls.isEmpty then [" - None ;)"] else ls

/-- The `userStats` counter triple (Go `uint` counters). -/
structure userStats where
  Pulls : Nat
  Issues : Nat
  Reviews : Nat
deriving DecidableEq

/-- The zero value `new(userStats)` starts from. -/
def userStats.zero : userStats := ⟨0, 0, 0⟩

/-- `userStats.sum`: `float32(Pulls) + float32(Reviews)*0.5 + float32(Issues)*0.5`,
modelled in exact rational arithmetic. -/
def userStats.sum (s : userStats) : ℚ :=
  (s.Pulls : ℚ) + (s.Reviews : ℚ) * 0.5 + (s.Issues : ℚ) * 0.5

/-- `userStats.String()`: `"pr=%d rev=%d tic=%d"`. -/
def userStats.render (s : userStats) : String :=
  "pr=" ++ toString s.Pulls ++ " rev=" ++ toString s.Reviews ++ " tic=" ++ toString s.Issues

/-- The `usersStats` map, modelled as an association list in insertion order. -/
structure usersStats where
  entries : List (String × userStats)
deriving DecidableEq

/-- Map lookup on the association list. -/
def findEntry (l : List (String × userStats)) (user : String) : Option userStats :=
  match l with
  | [] => none
  | (k, v) :: rest => if k = user then some v else findEntry rest user

/-- `usersStats.get` followed by a field mutation: update the entry in place,
or insert `f userStats.zero` when absent. -/
def updateEntries (l : List (String × userStats)) (user : String)
    (f : userStats → userStats) : List (String × userStats) :=
  match l with
  | [] => [(user, f userStats.zero)]
  | (k, v) :: rest =>
    if k = user then (k, f v) :: rest else (k, v) :: updateEntries rest user f

/-- Lookup, as a method. -/
def usersStats.find (s : usersStats) (user : String) : Option userStats :=
  findEntry s.entries user

/-- The keys currently stored in the map. -/
def usersStats.keys (s : usersStats) : List String :=
  s.entries.map Prod.fst

/-- `usersStats.review`: `s.get(name).Reviews++`. -/
def usersStats.review (s : usersStats) (name : String) : usersStats :=
  ⟨updateEntries s.entries name (fun u => { u with Reviews := u.Reviews + 1 })⟩

/-- `usersStats.pull`: `s.get(name).Pulls++`. -/
def usersStats.pull (s : usersStats) (name : String) : usersStats :=
  ⟨updateEntries s.entries name (fun u => { u with Pulls := u.Pulls + 1 })⟩

/-- `usersStats.issue`: `s.get(name).Issues++`. -/
def usersStats.issue (s : usersStats) (name : String) : usersStats :=
  ⟨updateEntries s.entries name (fun u => { u with Issues := u.Issues + 1 })⟩

/-- A review qualifies for the contributor statistics when the author
association is `"MEMBER"` and the state is `"CHANGES_REQUESTED"` or
`"APPROVED"`. -/
def qualifiesReview (r : Review) : Bool :=
  decide (r.authorAssociation = "MEMBER"
    ∧ (r.state = "CHANGES_REQUESTED" ∨ r.state = "APPROVED"))

/-- The `reviewers` deduplication set built per pull request in `cmdContribs`
(`map[string]bool` keyed by reviewer login), as a duplicate-free list. -/
def reviewersOf (revs : List Review) : List String :=
  ((revs.filter qualifiesReview).map Review.user).dedup

/-- Processing of one closed pull request by `cmdContribs`: range and
dependabot exclusion, dedup-counted qualifying reviews, and the merged-PR
pull counter. `f` is the normalized author filter. -/
def processPR (rng : Option Time → Bool) (f : String) (s : usersStats)
    (pr : PullRequest) : usersStats :=
  if !(rng pr.closedAt) then s
  else if pr.userLogin.startsWith "dependabot" then s
  else
    let s := (reviewersOf pr.reviews).foldl
      (fun s rv => if contribAuthorMatch f rv then s.review rv else s) s
    if pr.mergedAt ≠ none then
      if contribAuthorMatch f pr.userLogin then s.pull pr.userLogin else s
    else s

/-- Processing of one closed organization issue by `cmdContribs`: range check,
skip when unassigned or self-assigned, then the issue counter for the
reporter. -/
def processTicket (rng : Option Time → Bool) (f : String) (s : usersStats)
    (t : Issue) : usersStats :=
  if !(rng t.closedAt) then s
  else if t.assignee = none ∨ t.assignee = some t.userLogin then s
  else if contribAuthorMatch f t.userLogin then s.issue t.userLogin
  else s

/-- The statistics accumulated by `cmdContribs` over the fetched pull requests
and issues. -/
def contribStats (rng : Option Time → Bool) (f : String)
    (prs : List PullRequest) (tickets : List Issue) : usersStats :=
  tickets.foldl (processTicket rng f) (prs.foldl (processPR rng f) ⟨[]⟩)

/-- The per-user lines printed by `cmdContribs` after the fetch loop
(`"%s - %s (%f)"`). -/
def cmdContribLines (rng : Option Time → Bool) (f : String)
    (prs : List PullRequest) (tickets : List Issue) : List String :=
  (contribStats rng f prs tickets).entries.map
    (fun p => p.1 ++ " - " ++ p.2.render ++ " (" ++ toString p.2.sum ++ ")")

/-! ### Helper lemmas about lowercasing and the author normalizer -/

/-- Auxiliary: lowering an already-lowered basic latin letter is the identity. -/
theorem charToLower_shift (n : Nat) (h1 : 65 ≤ n) (h2 : n ≤ 90) :
    Char.toLower (Char.ofNat (n + 32)) = Char.ofNat (n + 32) := by
  interval_cases n <;> decide

/-- `Char.toLower` is idempotent. -/
theorem charToLower_idem (c : Char) : c.toLower.toLower = c.toLower := by
  by_cases h : c.toNat ≥ 65 ∧ c.toNat ≤ 90
  · have h1 : c.toLower = Char.ofNat (c.toNat + 32) := by
      unfold Char.toLower
      exact if_pos h
    rw [h1]
    exact charToLower_shift c.toNat h.1 h.2
  · have h1 : c.toLower = c := by
      unfold Char.toLower
      exact if_neg h
    rw [h1, h1]

/-- `lower` is idempotent. -/
theorem lower_idem (s : String) : lower (lower s) = lower s := by
  unfold lower
  refine congrArg String.mk ?_
  rw [List.map_map]
  exact List.map_congr_left (fun c _ => charToLower_idem c)

/-- The empty string lowers to itself. -/
theorem lower_empty : lower "" = "" := rfl

/-- The author normalizer ignores the authenticated user unless the raw value
is `"me"`. -/
theorem author_of_ne_me (raw u : String) (h : raw ≠ "me") :
    author raw u = author raw "" := by
  unfold author
  rw [if_neg h, if_neg h]

/-- Auxiliary: the final lowercasing step of the normalizer yields a
`lower`-fixed string. -/
theorem lower_fix_aux (b : String) :
    lower (if b ≠ "" then lower b else b) = if b ≠ "" then lower b else b := by
  by_cases h : b = ""
  · rw [if_neg (fun hc => hc h), h]
    rfl
  · rw [if_pos h]
    exact lower_idem b

/-- The author normalizer always returns a `lower`-fixed string. -/
theorem lower_author (raw u : String) : lower (author raw u) = author raw u := by
  unfold author
  exact lower_fix_aux _

/-! ### Claim theorems -/

/-- Claim C5: `WeeklyRange.Include` accepts a non-null timestamp iff it is
strictly after the reference minus seven days, has no upper bound (any
future offset of the reference is accepted), and rejects a null timestamp. -/
theorem c5_weekly_include (R T : Int) :
    ((WeeklyRange.mk R).Include (some T) = true ↔ R - hourNs * 24 * 7 < T)
    ∧ (WeeklyRange.mk R).Include none = false
    ∧ (∀ k : Nat, (WeeklyRange.mk R).Include (some (R + k)) = true) := by
  refine ⟨?_, rfl, ?_⟩
  · show (decide (R + -(hourNs * 24 * 7) < T) = true) ↔ _
    rw [decide_eq_true_eq]
    omega
  · intro k
    show decide (R + -(hourNs * 24 * 7) < R + (k : Int)) = true
    rw [decide_eq_true_eq, hourNs]
    omega

/-- Claim C6 (counterexample): `"@a"` begins with `'@'`, yet the normalizer
returns it unchanged — `author` only strips the `@` when the value is longer
than two bytes, so the claim fails for `"@a"`. -/
theorem c6_counterexample :
    author "@a" "" = "@a" ∧ author "@a" "" ≠ "a" := by decide

/-- Claim C6 (amended): for a raw filter value other than `"me"` that begins
with `'@'` AND is longer than two bytes, the normalizer drops exactly one
leading character and lowercases the remainder; `"@Foo"` normalizes like
`"foo"`, and like `"me"` when the authenticated user is `foo`. -/
theorem c6_amended (raw u : String) (h0 : raw ≠ "me") (h1 : raw.utf8ByteSize > 2)
    (h2 : raw.front = '@') :
    author raw u = lower (raw.drop 1)
    ∧ author "@Foo" u = author "foo" u
    ∧ author "me" "foo" = author "foo" u := by
  have hFoo : author "@Foo" u = "foo" := by
    rw [author_of_ne_me "@Foo" u (by decide)]; decide
  have hfoo : author "foo" u = "foo" := by
    rw [author_of_ne_me "foo" u (by decide)]; decide
  refine ⟨?_, by rw [hFoo, hfoo], by rw [hfoo]; decide⟩
  simp only [author]
  rw [if_neg h0]
  have hB : (if raw.utf8ByteSize > 2 ∧ raw.front = '@' then raw.drop 1 else raw)
      = raw.drop 1 := if_pos ⟨h1, h2⟩
  rw [hB]
  by_cases hd : raw.drop 1 = ""
  · rw [if_neg (fun hc => hc hd), hd, lower_empty]
  · rw [if_pos hd]

/-- Witness for C6 at `raw = "@Foo"`. -/
theorem c6_amended_witness : author "@Foo" "" = lower ("@Foo".drop 1) :=
  (c6_amended "@Foo" "" (by decide) (by decide) (by decide)).1

/-- Claim C7: token resolution prefers a non-empty flag, then a non-empty
`GITHUB_TOKEN` environment value, then the contents of the config file; when
all three are missing it fails with an error naming the attempted file path. -/
theorem c7_token_resolution (flag env home : String) (file : Option String) :
    (flag ≠ "" → token flag env home file = .ok flag)
    ∧ (flag = "" → env ≠ "" → token flag env home file = .ok env)
    ∧ (∀ c, flag = "" → env = "" → file = some c → token flag env home file = .ok c)
    ∧ (flag = "" → env = "" → file = none →
        ∃ pre, token flag env home file = .error (pre ++ tokenFile home)) := by
  refine ⟨fun h => ?_, fun h1 h2 => ?_, fun c h1 h2 h3 => ?_, fun h1 h2 h3 => ?_⟩
  · simp [token, h]
  · simp [token, h1, h2]
  · simp [token, h1, h2, h3]
  · exact ⟨"GitHub token neither given as a flag, nor found in env, not in ",
      by simp [token, h1, h2, h3]⟩

/-- Witness for C7: flag wins at a concrete input. -/
theorem c7_token_resolution_witness : token "tkn" "" "/home/u" none = .ok "tkn" :=
  (c7_token_resolution "tkn" "" "/home/u" none).1 (by decide)

/-- Claim C10: when the token comes from the config file, the result is the
file contents byte-for-byte — no trimming of whitespace or newlines. -/
theorem c10_file_token_verbatim (home contents : String) :
    token "" "" home (some contents) = .ok contents := rfl

/-- `reportIncludes` unfolded to its four conjuncts. -/
theorem reportIncludes_eq_true (rng : Option Time → Bool) (f : String) (pr : PullRequest) :
    reportIncludes rng f pr = true ↔
      (pr.mergedAt ≠ none ∧ rng (some (GetClosedAt pr)) = true
        ∧ pr.userLogin.startsWith "dependabot" = false
        ∧ ¬(f ≠ "" ∧ f ≠ lower pr.userLogin)) := by
  unfold reportIncludes repAuthorSkip
  split_ifs with h1 h2 h3 h4 <;> simp_all
  exact h4

/-- Claim C1: a fetched closed pull request survives the `report` filter chain
iff its merge timestamp is non-null, its (dereferenced) close timestamp
satisfies the active range, its author is not dependabot-prefixed, and the
normalized author filter is empty or case-insensitively equal to the author
login. -/
theorem c1_report_filter (rng : Option Time → Bool) (raw u : String)
    (pr : PullRequest) (prs : List PullRequest) :
    pr ∈ prs.filter (reportIncludes rng (author raw u)) ↔
      (pr ∈ prs ∧ pr.mergedAt ≠ none
        ∧ rng (some (GetClosedAt pr)) = true
        ∧ pr.userLogin.startsWith "dependabot" = false
        ∧ (author raw u = "" ∨ lower (author raw u) = lower pr.userLogin)) := by
  have hl : lower (author raw u) = author raw u := lower_author raw u
  have key : (author raw u = "" ∨ author raw u = lower pr.userLogin)
      ↔ (author raw u = "" ∨ lower (author raw u) = lower pr.userLogin) := by
    apply or_congr_right
    constructor
    · intro h; rw [h, lower_idem]
    · intro h; rw [← hl, h]
  rw [List.mem_filter, reportIncludes_eq_true]
  constructor
  · rintro ⟨hm, h1, h2, h3, h4⟩
    have hor : author raw u = "" ∨ author raw u = lower pr.userLogin := by
      by_cases hf : author raw u = ""
      · exact Or.inl hf
      · refine Or.inr ?_
        by_contra he
        exact h4 ⟨hf, he⟩
    exact ⟨hm, h1, h2, h3, key.mp hor⟩
  · rintro ⟨hm, h1, h2, h3, h4⟩
    refine ⟨hm, h1, h2, h3, ?_⟩
    rcases key.mpr h4 with hf | he
    · exact fun hc => hc.1 hf
    · exact fun hc => hc.2 he

/-- A merged pull request authored by the mixed-case login `"Alice"`. -/
def mixedCasePR : PullRequest :=
  { title := "Fix the build", userLogin := "Alice", state := "closed", merged := true,
    draft := false, mergedAt := some 0, closedAt := some 0, assignee := none,
    reviews := [], htmlURL := "https://example.test/pr/1" }

/-- Claim C2 (code bug): the filter value `Alice` normalizes to `"alice"`;
`report`/`status` then match the login `"Alice"` case-insensitively, but
`cmdContribs` compares the lowercased filter against the raw login, so with
the filter set the merged PR by `"Alice"` is not counted at all — while with
no filter it is. -/
theorem c2_contrib_author_case_bug :
    author "Alice" "" = "alice"
    ∧ repAuthorSkip (author "Alice" "") "Alice" = false
    ∧ contribAuthorMatch (author "Alice" "") "Alice" = false
    ∧ (contribStats ((WeeklyRange.mk 0).Include) (author "Alice" "")
        [mixedCasePR] []).entries = []
    ∧ (contribStats ((WeeklyRange.mk 0).Include) "" [mixedCasePR] []).entries
        = [("Alice", { Pulls := 1, Issues := 0, Reviews := 0 })] := by decide

/-- Claim C8 (counterexample): the aggregation key stored for the merged PR by
`"Alice"` is `"Alice"` itself, which is not lowercased. -/
theorem c8_counterexample :
    (contribStats ((WeeklyRange.mk 0).Include) "" [mixedCasePR] []).keys = ["Alice"]
    ∧ lower "Alice" ≠ "Alice" := by decide

/-- Claim C9 (counterexample): with nothing to report, `cmdContribs` prints no
per-user lines and no placeholder line at all — the claim fails for the
`contrib` command. -/
theorem c9_counterexample :
    cmdContribLines ((WeeklyRange.mk 0).Include) "" [] [] = [] := by decide

/-- Claim C9 (amended): when the filtered sequence is empty, `report` prints
exactly the literal `" - Nothing ;)"` line and `status` exactly the literal
`" - None ;)"` line; `contrib` prints no line at all. -/
theorem c9_amended (rng : Option Time → Bool) (f : String) (authors : Bool)
    (prs prs2 : List PullRequest) (tickets : List Issue)
    (h1 : prs.filter (reportIncludes rng f) = [])
    (h2 : prs2.filter (statIncludes f) = [])
    (h3 : (contribStats rng f prs tickets).entries = []) :
    cmdRepLines rng f authors prs = [" - Nothing ;)"]
    ∧ cmdStatLines f prs2 = [" - None ;)"]
    ∧ cmdContribLines rng f prs tickets = [] := by
  refine ⟨?_, ?_, ?_⟩
  · simp [cmdRepLines, h1]
  · simp [cmdStatLines, h2]
  · simp [cmdContribLines, h3]

/-- Witness for C9 at concrete empty inputs. -/
theorem c9_amended_witness :
    cmdRepLines ((WeeklyRange.mk 0).Include) "" false [] = [" - Nothing ;)"]
    ∧ cmdStatLines "" [] = [" - None ;)"]
    ∧ cmdContribLines ((WeeklyRange.mk 0).Include) "" [] [] = [] :=
  c9_amended ((WeeklyRange.mk 0).Include) "" false [] [] [] rfl rfl rfl

/-! ### Lemmas about the statistics map -/

/-- The `Reviews` counter stored for a user in an entry list (0 when absent). -/
def entryReviews (l : List (String × userStats)) (k : String) : Nat :=
  match findEntry l k with
  | some st => st.Reviews
  | none => 0

/-- The `Reviews` counter currently stored for a user. -/
def usersStats.reviewCount (s : usersStats) (k : String) : Nat :=
  entryReviews s.entries k

/-- Looking up the updated key finds the updated record. -/
theorem findEntry_update_self (l : List (String × userStats)) (u : String)
    (f : userStats → userStats) :
    findEntry (updateEntries l u f) u = some (f ((findEntry l u).getD userStats.zero)) := by
  induction l with
  | nil => simp [updateEntries, findEntry]
  | cons hd tl ih =>
    obtain ⟨k0, v⟩ := hd
    by_cases h : k0 = u
    · simp [updateEntries, findEntry, h]
    · simp [updateEntries, findEntry, h, ih]

/-- Looking up any other key is unaffected by an update. -/
theorem findEntry_update_other (l : List (String × userStats)) (u k : String)
    (f : userStats → userStats) (hk : k ≠ u) :
    findEntry (updateEntries l u f) k = findEntry l k := by
  induction l with
  | nil => simp [updateEntries, findEntry, Ne.symm hk]
  | cons hd tl ih =>
    obtain ⟨k0, v⟩ := hd
    by_cases h : k0 = u
    · subst h
      simp [updateEntries, findEntry, Ne.symm hk]
    · simp [updateEntries, findEntry, h, ih]

/-- `review` increments exactly the named user's `Reviews` counter. -/
theorem reviewCount_review (s : usersStats) (n k : String) :
    (s.review n).reviewCount k = s.reviewCount k + (if k = n then 1 else 0) := by
  by_cases h : k = n
  · subst h
    rw [if_pos rfl]
    show entryReviews (updateEntries s.entries k _) k = _
    rw [entryReviews, findEntry_update_self]
    cases hf : findEntry s.entries k <;>
      simp [usersStats.reviewCount, entryReviews, hf, userStats.zero]
  · rw [if_neg h]
    show entryReviews (updateEntries s.entries n _) k = _
    rw [entryReviews, findEntry_update_other _ _ _ _ h]
    rfl

/-- `pull` leaves every `Reviews` counter unchanged. -/
theorem reviewCount_pull (s : usersStats) (n k : String) :
    (s.pull n).reviewCount k = s.reviewCount k := by
  by_cases h : k = n
  · subst h
    show entryReviews (updateEntries s.entries k _) k = _
    rw [entryReviews, findEntry_update_self]
    cases hf : findEntry s.entries k <;>
      simp [usersStats.reviewCount, entryReviews, hf, userStats.zero]
  · show entryReviews (updateEntries s.entries n _) k = _
    rw [entryReviews, findEntry_update_other _ _ _ _ h]
    rfl

/-- The reviewer-counting fold adds exactly one to each matching member of a
duplicate-free reviewer list. -/
theorem reviewCount_foldRev (f : String) (rs : List String) (s : usersStats)
    (k : String) (hnd : rs.Nodup) :
    ((rs.foldl (fun s rv => if contribAuthorMatch f rv then s.review rv else s) s).reviewCount k)
      = s.reviewCount k
        + (if k ∈ rs ∧ contribAuthorMatch f k = true then 1 else 0) := by
  induction rs generalizing s with
  | nil => simp
  | cons hd tl ih =>
    rw [List.foldl_cons, ih _ (List.Nodup.of_cons hnd)]
    by_cases hk : k = hd
    · subst hk
      have hnin : k ∉ tl := (List.nodup_cons.mp hnd).1
      by_cases hm : contribAuthorMatch f k = true
      · rw [if_pos hm, reviewCount_review]
        simp [hm, hnin]
      · rw [if_neg hm]
        simp [hm]
    · have hstep : (if contribAuthorMatch f hd = true then s.review hd else s).reviewCount k
          = s.reviewCount k := by
        by_cases hm : contribAuthorMatch f hd = true
        · rw [if_pos hm, reviewCount_review, if_neg hk]
          exact Nat.add_zero _
        · rw [if_neg hm]
      rw [hstep]
      have hiff : (k ∈ hd :: tl ∧ contribAuthorMatch f k = true)
          ↔ (k ∈ tl ∧ contribAuthorMatch f k = true) := by
        simp [List.mem_cons, hk]
      rw [if_congr hiff rfl rfl]

/-- Membership in the per-PR reviewer set is exactly «submitted a qualifying
review». -/
theorem mem_reviewersOf (revs : List Review) (k : String) :
    k ∈ reviewersOf revs ↔
      ∃ r ∈ revs, r.user = k ∧ r.authorAssociation = "MEMBER"
        ∧ (r.state = "APPROVED" ∨ r.state = "CHANGES_REQUESTED") := by
  unfold reviewersOf
  rw [List.mem_dedup]
  simp only [List.mem_map, List.mem_filter, qualifiesReview, decide_eq_true_eq]
  constructor
  · rintro ⟨r, ⟨hr, ha, hs⟩, huser⟩
    exact ⟨r, hr, huser, ha, hs.symm⟩
  · rintro ⟨r, hr, huser, ha, hs⟩
    exact ⟨r, ⟨hr, ha, hs.symm⟩, huser⟩

/-- Claim C3: processing one pull request increments a reviewer's counter by
exactly one when the PR passes the range and dependabot checks, the author
filter matches, and the reviewer submitted at least one review with member
association and approved/changes-requested state — and by zero otherwise, no
matter how many qualifying reviews they submitted. -/
theorem c3_review_counting (rng : Option Time → Bool) (f : String) (s : usersStats)
    (pr : PullRequest) (k : String) :
    (processPR rng f s pr).reviewCount k =
      s.reviewCount k +
        (if rng pr.closedAt = true
            ∧ pr.userLogin.startsWith "dependabot" = false
            ∧ contribAuthorMatch f k = true
            ∧ (∃ r ∈ pr.reviews, r.user = k ∧ r.authorAssociation = "MEMBER"
                ∧ (r.state = "APPROVED" ∨ r.state = "CHANGES_REQUESTED"))
         then 1 else 0) := by
  simp only [processPR]
  by_cases h1 : rng pr.closedAt = true
  · by_cases h2 : pr.userLogin.startsWith "dependabot" = true
    · rw [if_neg (by simp [h1]), if_pos h2]
      simp [h1, h2]
    · rw [if_neg (by simp [h1]), if_neg h2]
      have hmerge : ∀ s0 : usersStats,
          (if pr.mergedAt ≠ none then
              (if contribAuthorMatch f pr.userLogin = true
                then s0.pull pr.userLogin else s0)
            else s0).reviewCount k = s0.reviewCount k := by
        intro s0
        split_ifs <;> simp [reviewCount_pull]
      have hnd : (reviewersOf pr.reviews).Nodup := List.nodup_dedup _
      rw [hmerge, reviewCount_foldRev f (reviewersOf pr.reviews) s k hnd]
      have hcond : (k ∈ reviewersOf pr.reviews ∧ contribAuthorMatch f k = true)
          ↔ (rng pr.closedAt = true
              ∧ pr.userLogin.startsWith "dependabot" = false
              ∧ contribAuthorMatch f k = true
              ∧ (∃ r ∈ pr.reviews, r.user = k ∧ r.authorAssociation = "MEMBER"
                  ∧ (r.state = "APPROVED" ∨ r.state = "CHANGES_REQUESTED"))) := by
        rw [mem_reviewersOf]
        constructor
        · rintro ⟨hex, hm⟩
          exact ⟨h1, by simpa using h2, hm, hex⟩
        · rintro ⟨_, _, hm, hex⟩
          exact ⟨hex, hm⟩
      rw [if_congr hcond rfl rfl]
  · rw [if_pos (by simp [Bool.not_eq_true] at h1; simp [h1])]
    simp [h1]

/-- The pull request of the aggregation scenario: merged PR#1 by `bob` with a
member-approved review by `alice`. -/
def scenarioPR : PullRequest :=
  { title := "PR#1", userLogin := "bob", state := "closed", merged := true,
    draft := false, mergedAt := some 0, closedAt := some 0, assignee := none,
    reviews := [{ user := "alice", authorAssociation := "MEMBER", state := "APPROVED" }],
    htmlURL := "https://example.test/pr/2" }

/-- The issue of the aggregation scenario: closed, reported by `bob`, assigned
to `carol`. -/
def scenarioIssue : Issue :=
  { userLogin := "bob", assignee := some "carol", closedAt := some 0,
    htmlURL := "https://example.test/issue/3" }

/-- Claim C4: the score is `pulls*1.0 + reviews*0.5 + issues*0.5`, and the
aggregation scenario yields `bob.Pulls=1`, `alice.Reviews=1`, `bob.Issues=1`,
`bob.sum=1.5`, `alice.sum=0.5`. -/
theorem c4_score_and_scenario :
    (∀ st : userStats,
      st.sum = (st.Pulls : ℚ) * 1 + (st.Reviews : ℚ) * (1 / 2) + (st.Issues : ℚ) * (1 / 2))
    ∧ (contribStats ((WeeklyRange.mk 0).Include) "" [scenarioPR] [scenarioIssue]).find "bob"
        = some { Pulls := 1, Issues := 1, Reviews := 0 }
    ∧ (contribStats ((WeeklyRange.mk 0).Include) "" [scenarioPR] [scenarioIssue]).find "alice"
        = some { Pulls := 0, Issues := 0, Reviews := 1 }
    ∧ userStats.sum { Pulls := 1, Issues := 1, Reviews := 0 } = 3 / 2
    ∧ userStats.sum { Pulls := 0, Issues := 0, Reviews := 1 } = 1 / 2 := by
  refine ⟨fun st => ?_, by decide, by decide, by norm_num [userStats.sum],
    by norm_num [userStats.sum]⟩
  unfold userStats.sum
  norm_num

/-! ### Key provenance for the statistics map -/

/-- All author logins occurring in the fetched input, written as fetched. -/
def inputLogins (prs : List PullRequest) (tickets : List Issue) : List String :=
  (prs.map (fun pr => pr.userLogin :: pr.reviews.map Review.user)).flatten
    ++ tickets.map Issue.userLogin

/-- A key present after an update was the updated key or was already present. -/
theorem keys_updateEntries (l : List (String × userStats)) (u k : String)
    (f : userStats → userStats)
    (h : k ∈ (updateEntries l u f).map Prod.fst) : k = u ∨ k ∈ l.map Prod.fst := by
  induction l with
  | nil =>
    rw [updateEntries] at h
    rw [List.map_cons] at h
    rcases List.mem_cons.mp h with he | hn
    · exact Or.inl he
    · exact absurd hn (List.not_mem_nil k)
  | cons hd tl ih =>
    obtain ⟨k0, v⟩ := hd
    by_cases he : k0 = u
    · rw [updateEntries, if_pos he] at h
      rw [List.map_cons] at h
      rw [List.map_cons]
      rcases List.mem_cons.mp h with he2 | h2
      · exact Or.inl (he ▸ he2)
      · exact Or.inr (List.mem_cons.mpr (Or.inr h2))
    · rw [updateEntries, if_neg he] at h
      rcases List.mem_map.mp h with ⟨p, hp, hfst⟩
      rcases List.mem_cons.mp hp with rfl | hp2
      · exact Or.inr (by simp [← hfst])
      · rcases ih (List.mem_map.mpr ⟨p, hp2, hfst⟩) with h1 | h2
        · exact Or.inl h1
        · exact Or.inr (List.mem_cons_of_mem _ h2)

/-- A key present after `review` was the reviewer or was already present. -/
theorem keys_review (s : usersStats) (n k : String) (h : k ∈ (s.review n).keys) :
    k = n ∨ k ∈ s.keys :=
  keys_updateEntries s.entries n k _ h

/-- A key present after `pull` was the PR author or was already present. -/
theorem keys_pull (s : usersStats) (n k : String) (h : k ∈ (s.pull n).keys) :
    k = n ∨ k ∈ s.keys :=
  keys_updateEntries s.entries n k _ h

/-- A key present after `issue` was the reporter or was already present. -/
theorem keys_issue (s : usersStats) (n k : String) (h : k ∈ (s.issue n).keys) :
    k = n ∨ k ∈ s.keys :=
  keys_updateEntries s.entries n k _ h

/-- A key present after the reviewer fold came from the reviewer list or was
already present. -/
theorem keys_foldRev (f : String) (rs : List String) (s : usersStats) (k : String)
    (h : k ∈ ((rs.foldl (fun s rv => if contribAuthorMatch f rv then s.review rv else s) s)).keys) :
    k ∈ rs ∨ k ∈ s.keys := by
  induction rs generalizing s with
  | nil => exact Or.inr h
  | cons hd tl ih =>
    rw [List.foldl_cons] at h
    rcases ih _ h with htl | hs
    · exact Or.inl (List.mem_cons_of_mem _ htl)
    · by_cases hc : contribAuthorMatch f hd = true
      · rw [if_pos hc] at hs
        rcases keys_review _ _ _ hs with he | hk
        · exact Or.inl (he ▸ List.mem_cons_self _ _)
        · exact Or.inr hk
      · rw [if_neg hc] at hs
        exact Or.inr hs

/-- The reviewer set only contains logins of fetched reviews. -/
theorem reviewersOf_subset (revs : List Review) (k : String)
    (h : k ∈ reviewersOf revs) : k ∈ revs.map Review.user := by
  unfold reviewersOf at h
  rw [List.mem_dedup] at h
  rcases List.mem_map.mp h with ⟨r, hr, hu⟩
  exact List.mem_map.mpr ⟨r, (List.mem_filter.mp hr).1, hu⟩

/-- A key present after processing one pull request is the PR author, one of
its reviewers, or was already present. -/
theorem keys_processPR (rng : Option Time → Bool) (f : String) (s : usersStats)
    (pr : PullRequest) (k : String)
    (h : k ∈ (processPR rng f s pr).keys) :
    k = pr.userLogin ∨ k ∈ pr.reviews.map Review.user ∨ k ∈ s.keys := by
  simp only [processPR] at h
  by_cases h1 : (!(rng pr.closedAt)) = true
  · rw [if_pos h1] at h
    exact Or.inr (Or.inr h)
  · rw [if_neg h1] at h
    by_cases h2 : pr.userLogin.startsWith "dependabot" = true
    · rw [if_pos h2] at h
      exact Or.inr (Or.inr h)
    · rw [if_neg h2] at h
      have hF : k ∈ ((reviewersOf pr.reviews).foldl
            (fun s rv => if contribAuthorMatch f rv then s.review rv else s) s).keys →
          k ∈ pr.reviews.map Review.user ∨ k ∈ s.keys := by
        intro hk
        rcases keys_foldRev f _ s k hk with hr | hs
        · exact Or.inl (reviewersOf_subset _ _ hr)
        · exact Or.inr hs
      split_ifs at h with hm hc
      · rcases keys_pull _ _ _ h with he | hk
        · exact Or.inl he
        · rcases hF hk with hv | hs
          · exact Or.inr (Or.inl hv)
          · exact Or.inr (Or.inr hs)
      · rcases hF h with hv | hs
        · exact Or.inr (Or.inl hv)
        · exact Or.inr (Or.inr hs)
      · rcases hF h with hv | hs
        · exact Or.inr (Or.inl hv)
        · exact Or.inr (Or.inr hs)

/-- A key present after processing one issue is the reporter or was already
present. -/
theorem keys_processTicket (rng : Option Time → Bool) (f : String) (s : usersStats)
    (t : Issue) (k : String)
    (h : k ∈ (processTicket rng f s t).keys) : k = t.userLogin ∨ k ∈ s.keys := by
  unfold processTicket at h
  split_ifs at h with h1 h2 h3
  · exact Or.inr h
  · exact Or.inr h
  · exact keys_issue _ _ _ h
  · exact Or.inr h

/-- A key present after the pull-request fold came from one of the pull
requests or was already present. -/
theorem keys_foldPR (rng : Option Time → Bool) (f : String) (prs : List PullRequest)
    (s : usersStats) (k : String)
    (h : k ∈ (prs.foldl (processPR rng f) s).keys) :
    (∃ pr ∈ prs, k = pr.userLogin ∨ k ∈ pr.reviews.map Review.user) ∨ k ∈ s.keys := by
  induction prs generalizing s with
  | nil => exact Or.inr h
  | cons hd tl ih =>
    rw [List.foldl_cons] at h
    rcases ih _ h with htl | hs
    · obtain ⟨pr, hpr, hp⟩ := htl
      exact Or.inl ⟨pr, List.mem_cons_of_mem _ hpr, hp⟩
    · rcases keys_processPR _ _ _ _ _ hs with h1 | h2 | h3
      · exact Or.inl ⟨hd, List.mem_cons_self _ _, Or.inl h1⟩
      · exact Or.inl ⟨hd, List.mem_cons_self _ _, Or.inr h2⟩
      · exact Or.inr h3

/-- A key present after the ticket fold came from one of the tickets or was
already present. -/
theorem keys_foldTicket (rng : Option Time → Bool) (f : String) (tickets : List Issue)
    (s : usersStats) (k : String)
    (h : k ∈ (tickets.foldl (processTicket rng f) s).keys) :
    (∃ t ∈ tickets, k = t.userLogin) ∨ k ∈ s.keys := by
  induction tickets generalizing s with
  | nil => exact Or.inr h
  | cons hd tl ih =>
    rw [List.foldl_cons] at h
    rcases ih _ h with htl | hs
    · obtain ⟨t, ht, hp⟩ := htl
      exact Or.inl ⟨t, List.mem_cons_of_mem _ ht, hp⟩
    · rcases keys_processTicket _ _ _ _ _ hs with h1 | h2
      · exact Or.inl ⟨hd, List.mem_cons_self _ _, h1⟩
      · exact Or.inr h2

/-- Claim C8 (amended): every key stored in the statistics map is one of the
input author logins written verbatim — the aggregator never lowercases (nor
otherwise rewrites) a login on write. -/
theorem c8_amended (rng : Option Time → Bool) (f : String) (prs : List PullRequest)
    (tickets : List Issue) (k : String)
    (h : k ∈ (contribStats rng f prs tickets).keys) :
    k ∈ inputLogins prs tickets := by
  unfold contribStats at h
  rcases keys_foldTicket _ _ _ _ _ h with ht | hp
  · obtain ⟨t, htm, he⟩ := ht
    exact List.mem_append_right _ (List.mem_map.mpr ⟨t, htm, he.symm⟩)
  · rcases keys_foldPR _ _ _ _ _ hp with hpr | hemp
    · obtain ⟨pr, hm, hcase⟩ := hpr
      refine List.mem_append_left _ (List.mem_flatten.mpr
        ⟨pr.userLogin :: pr.reviews.map Review.user, List.mem_map.mpr ⟨pr, hm, rfl⟩, ?_⟩)
      rcases hcase with he | hv
      · exact he ▸ List.mem_cons_self _ _
      · exact List.mem_cons_of_mem _ hv
    · simp [usersStats.keys] at hemp

/-- Witness for C8 at a concrete input: the key `"Alice"` stored for the
merged PR by `"Alice"` is among the input logins. -/
theorem c8_amended_witness : "Alice" ∈ inputLogins [mixedCasePR] [] :=
  c8_amended ((WeeklyRange.mk 0).Include) "" [mixedCasePR] [] "Alice" (by decide)

end Reporter
